import Mathlib

/-!
Verification development for the ESMValCore cmorizer utilities.

The Python sources modelled here are:
* `esmvaltool/utils/cmorizers/obs/cmorize_obs_ESACCI-OC.py` — the ESACCI-OC
  cmorizer (`_fix_data`, `_add_depth_coord`, `extract_variable`, `merge_data`,
  `cmorization`);
* the CMIP5 fix registry exercised by
  `tests/integration/cmor/_fixes/cmip5/test_fio_esm.py` and
  `tests/integration/cmor/_fixes/cmip5/test_hadgem2_cc.py`.

Machine floats are modelled by `Rat` (exact arithmetic); Python dictionaries by
association lists; a NetCDF file system by a partial map from path strings to
datasets.  Fallible Python operations (dict `del` / indexing on a missing key,
coarsening with `boundary='exact'`, referencing an unbound name) are modelled
with `Except String` / `Option`.
-/

/-- A single time frame of a gridded variable: rows indexed by latitude,
columns by longitude. -/
abbrev Frame := List (List Rat)

/-- Model of an `xarray.DataArray`: a stack of time frames plus its attribute
dictionary (an association list, as Python dicts are ordered). -/
structure DataArray where
  frames : List Frame
  attrs : List (String × String)
deriving DecidableEq

/-- Model of an `xarray.Dataset`: named data variables plus global
attributes. -/
structure NcDataset where
  vars : List (String × DataArray)
  attrs : List (String × String)
deriving DecidableEq

/-- Python `del d[k]` on an association list: `none` models the `KeyError`
raised when the key is absent, otherwise the list with the first binding of
`k` removed. -/
def assocDel (k : String) : List (String × String) → Option (List (String × String))
  | [] => none
  | (k', v) :: rest =>
    if k' == k then some rest
    else (assocDel k rest).map (fun r => (k', v) :: r)

/-- `del d[k]` as an `Except`, with the Python `KeyError` message. -/
def delAttr (k : String) (attrs : List (String × String)) :
    Except String (List (String × String)) :=
  match assocDel k attrs with
  | some a => Except.ok a
  | none => Except.error ("KeyError: " ++ k)

/-- Splits a list into consecutive chunks of size `n` (the last chunk may be
short; `coarsenDa` separately enforces the `boundary='exact'` divisibility
check of `xarray.DataArray.coarsen`). -/
def chunkExact (n : Nat) (l : List α) : List (List α) :=
  if h : n = 0 ∨ l.isEmpty then []
  else (l.take n) :: chunkExact n (l.drop n)
termination_by l.length
decreasing_by
  push_neg at h
  obtain ⟨hn, hl⟩ := h
  have hlen : 0 < l.length := by
    cases l with
    | nil => simp at hl
    | cons a t => simp
  simp only [List.length_drop]
  omega

/-- Arithmetic mean of a list of values, as used by `coarsen(...).mean()`. -/
def meanList (l : List Rat) : Rat := l.sum / (l.length : Rat)

/-- `da.coarsen(lat=bins, boundary='exact').mean()` on one time frame:
consecutive blocks of `bins` latitude rows are averaged pointwise. -/
def coarsenLatFrame (bins : Nat) (f : Frame) : Frame :=
  (chunkExact bins f).map (fun block => block.transpose.map meanList)

/-- `da.coarsen(lon=bins, boundary='exact').mean()` on one time frame:
consecutive blocks of `bins` longitude cells of every row are averaged. -/
def coarsenLonFrame (bins : Nat) (f : Frame) : Frame :=
  f.map (fun row => (chunkExact bins row).map meanList)

/-- The two coarsening steps of `merge_data`; `boundary='exact'` makes xarray
raise when the dimension size is not a multiple of the window, which the
model reports as an `Except.error`. -/
def coarsenDa (bins : Nat) (da : DataArray) : Except String DataArray :=
  if da.frames.all (fun f => f.length % bins == 0) then
    let da1 : DataArray := { da with frames := da.frames.map (coarsenLatFrame bins) }
    if da1.frames.all (fun f => f.all (fun row => row.length % bins == 0)) then
      Except.ok { da1 with frames := da1.frames.map (coarsenLonFrame bins) }
    else Except.error "ValueError: could not coarsen lon with boundary exact"
  else Except.error "ValueError: could not coarsen lat with boundary exact"

/-- `ds[var].sel(lat=slice(None, None, -1))`: the latitude axis of every time
frame is reversed; attributes are untouched. -/
def latReversed (da : DataArray) : DataArray :=
  { da with frames := da.frames.map List.reverse }

/-- The three variable attributes `merge_data` deletes from every input
file. -/
def attrsDeleted : List String :=
  ["grid_mapping", "ancillary_variables", "parameter_vocab_uri"]

/-- The attribute-deletion loop of `merge_data`:
`for thekeys in ['grid_mapping', 'ancillary_variables', 'parameter_vocab_uri']:
del da.attrs[thekeys]`. -/
def delChain (attrs : List (String × String)) :
    Except String (List (String × String)) :=
  match delAttr "grid_mapping" attrs with
  | Except.error e => Except.error e
  | Except.ok a1 =>
    match delAttr "ancillary_variables" a1 with
    | Except.error e => Except.error e
    | Except.ok a2 => delAttr "parameter_vocab_uri" a2

/-- The unconditional per-file part of the `merge_data` loop body: select the
variable `var` with latitude reversed, then delete the three attributes. -/
def processPlain (var : String) (ds : NcDataset) : Except String DataArray :=
  match ds.vars.lookup var with
  | none => Except.error ("KeyError: " ++ var)
  | some da0 =>
    let da1 := latReversed da0
    match delChain da1.attrs with
    | Except.error e => Except.error e
    | Except.ok a3 => Except.ok { da1 with attrs := a3 }

/-- The whole per-file part of the `merge_data` loop body: the plain part
followed, when `do_bin` holds, by the two coarsening steps. -/
def processFile (var : String) (bins : Nat) (doBin : Bool) (ds : NcDataset) :
    Except String DataArray :=
  match processPlain var ds with
  | Except.error e => Except.error e
  | Except.ok da2 => if doBin then coarsenDa bins da2 else Except.ok da2

/-- `xr.open_dataset(x)` followed by the per-file processing; opening a path
the file system does not hold fails. -/
def openProcess (fs : String → Option NcDataset) (var : String) (bins : Nat)
    (doBin : Bool) (x : String) : Except String (NcDataset × DataArray) :=
  match fs x with
  | none => Except.error ("FileNotFoundError: " ++ x)
  | some ds =>
    match processFile var bins doBin ds with
    | Except.error e => Except.error e
    | Except.ok da => Except.ok (ds, da)

/-- The five global attributes `merge_data` copies from the first file. -/
def metaKeys : List String :=
  ["creator_name", "creator_url", "license", "sensor", "processing_level"]

/-- `dict((y, ds.attrs[y]) for y in thekeys)`: looks every key up, raising
`KeyError` on the first absent one. -/
def lookupAll (attrs : List (String × String)) :
    List String → Except String (List (String × String))
  | [] => Except.ok []
  | k :: ks =>
    match attrs.lookup k with
    | none => Except.error ("KeyError: " ++ k)
    | some v =>
      match lookupAll attrs ks with
      | Except.error e => Except.error e
      | Except.ok rest => Except.ok ((k, v) :: rest)

/-- The `BINNING` string built by
`' '.join(['Data binned using ', '{}'.format(bins), 'by', '{}'.format(bins),
'cells average'])` (note the double space contributed by the trailing space
of the first word plus the join separator). -/
def binningStr (bins : Nat) : String :=
  "Data binned using  " ++ toString bins ++ " by " ++ toString bins ++
    " cells average"

/-- The `dsmeta` dictionary gathered from the first file: the five copied
global attributes plus the `BINNING` entry. -/
def gatherMeta (bins : Nat) (doBin : Bool) (ds : NcDataset) :
    Except String (List (String × String)) :=
  match lookupAll ds.attrs metaKeys with
  | Except.error e => Except.error e
  | Except.ok vals =>
    Except.ok (vals ++ [("BINNING", if doBin then binningStr bins else "")])

/-- `xr.concat((newda, da), dim='time')`: time frames are appended; the
attributes of the first operand are kept. -/
def timeConcat (a b : DataArray) : DataArray :=
  { a with frames := a.frames ++ b.frames }

/-- The `for x in datafile:` loop of `merge_data`.  The accumulator holds the
Python locals `newda` and `dsmeta` when they are bound; using `newda` before
the first file has bound it is the Python `NameError`. -/
def mergeGo (fs : String → Option NcDataset) (var : String) (bins : Nat)
    (doBin : Bool) (first : String) :
    List String → Option (DataArray × List (String × String)) →
    Except String (DataArray × List (String × String))
  | [], none => Except.error "NameError: name newda is not defined"
  | [], some acc => Except.ok acc
  | x :: rest, acc =>
    match openProcess fs var bins doBin x with
    | Except.error e => Except.error e
    | Except.ok (ds, da) =>
      if x == first then
        match gatherMeta bins doBin ds with
        | Except.error e => Except.error e
        | Except.ok meta => mergeGo fs var bins doBin first rest (some (da, meta))
      else
        match acc with
        | none => Except.error "NameError: name newda is not defined"
        | some (newda, meta) =>
          mergeGo fs var bins doBin first rest (some (timeConcat newda da, meta))

/-- `os.path.join` for a relative second component. -/
def joinPath (a b : String) : String := a ++ "/" ++ b

/-- The glob pattern `in_dir + '/' + raw_info['file'] + '*.nc'`: the path
starts with the fixed part, ends in `.nc`, and the part matched by `*`
contains no path separator. -/
def globMatch (pre : String) (p : String) : Bool :=
  let prel := pre.toList
  let pl := p.toList
  (pl.take prel.length == prel) &&
    (let rest := pl.drop prel.length
     decide (3 ≤ rest.length) &&
       rest.drop (rest.length - 3) == ['.', 'n', 'c'] &&
       (rest.take (rest.length - 3)).all (fun c => c ≠ '/'))

/-- `sorted(...)` on path strings: lexicographic, via insertion sort. -/
def sortPaths (l : List String) : List String :=
  List.insertionSort (fun a b : String => a ≤ b) l

/-- `merge_data(in_dir, out_dir, raw_info, bins)` of the ESACCI-OC cmorizer.
`fs` is the file system contents and `names` the (unordered) enumeration the
OS hands to `glob.glob`; on success the result is the written path, the
`BINNING` string returned to the caller, and the dataset written to that
path (NetCDF encoding options are I/O details outside the model). -/
def merge_data (fs : String → Option NcDataset) (names : List String)
    (in_dir out_dir raw_name raw_file : String) (bins : Nat) :
    Except String (String × String × NcDataset) :=
  let var := raw_name
  let doBin := bins % 2 == 0 && bins != 0
  let datafile := sortPaths (names.filter (globMatch (joinPath in_dir raw_file)))
  let first := datafile.headD ""
  match mergeGo fs var bins doBin first datafile none with
  | Except.error e => Except.error e
  | Except.ok (newda, dsmeta) =>
    match dsmeta.lookup "BINNING" with
    | none => Except.error "KeyError: BINNING"
    | some b =>
      Except.ok (joinPath out_dir (raw_file ++ "_merged.nc"), b,
        { vars := [(var, newda)], attrs := dsmeta })

/-- Per-file processing of a list of paths, in order: open each dataset and
run the per-file pipeline on it. -/
def processList (fs : String → Option NcDataset) (var : String) (bins : Nat)
    (doBin : Bool) : List String → Except String (List DataArray)
  | [] => Except.ok []
  | x :: xs =>
    match openProcess fs var bins doBin x with
    | Except.error e => Except.error e
    | Except.ok (_, da) =>
      match processList fs var bins doBin xs with
      | Except.error e => Except.error e
      | Except.ok das => Except.ok (da :: das)

/-- Spec-side restatement of `merge_data`, following the spec's words: for
the sorted list of matching files, process every file (open the dataset,
select the named variable with latitude reversed, delete the three
attributes, optionally coarsen), concatenate along time in file order, copy
the five global attributes of the first file plus `BINNING`, and write to
`<file>_merged.nc` under `out_dir`, returning that path and the `BINNING`
string. -/
def merge_data_spec (fs : String → Option NcDataset) (names : List String)
    (in_dir out_dir raw_name raw_file : String) (bins : Nat) :
    Except String (String × String × NcDataset) :=
  let var := raw_name
  let doBin := bins % 2 == 0 && bins != 0
  let datafile := sortPaths (names.filter (globMatch (joinPath in_dir raw_file)))
  match datafile with
  | [] => Except.error "NameError: name newda is not defined"
  | f0 :: rest =>
    match openProcess fs var bins doBin f0 with
    | Except.error e => Except.error e
    | Except.ok (ds0, da0) =>
      match gatherMeta bins doBin ds0 with
      | Except.error e => Except.error e
      | Except.ok meta =>
        match processList fs var bins doBin rest with
        | Except.error e => Except.error e
        | Except.ok das =>
          match meta.lookup "BINNING" with
          | none => Except.error "KeyError: BINNING"
          | some b =>
            Except.ok (joinPath out_dir (raw_file ++ "_merged.nc"), b,
              { vars := [(var, das.foldl timeConcat da0)], attrs := meta })

/-- Model of an `iris.coords.AuxCoord`: points plus the naming and unit
metadata the cmorizer touches. -/
structure Coord where
  points : List Rat
  standard_name : String
  long_name : String
  var_name : String
  units : String
  attributes : List (String × String)
deriving DecidableEq

/-- Model of an `iris.cube.Cube`: data values plus the metadata the cmorizer
and the fix classes touch.  `coordinates` is the ad-hoc Python attribute set
by `_add_depth_coord` (`cube.coordinates = 'depth'`). -/
structure Cube where
  data : List Rat
  var_name : String
  standard_name : String
  long_name : String
  units : String
  attributes : List (String × String)
  aux_coords : List Coord
  coordinates : Option String
deriving DecidableEq

/-- `coord.name()` in iris: the standard name, falling back to the long name,
the var name, and finally `'unknown'`. -/
def coordName (c : Coord) : String :=
  if c.standard_name ≠ "" then c.standard_name
  else if c.long_name ≠ "" then c.long_name
  else if c.var_name ≠ "" then c.var_name
  else "unknown"

/-- `cube.coords('depth')` is non-empty: some coordinate of the cube is named
`depth`. -/
def hasDepthCoord (cube : Cube) : Bool :=
  cube.aux_coords.any (fun c => coordName c == "depth")

/-- The auxiliary coordinate built by `_add_depth_coord`: scalar value `1.`,
units `'m'`, attribute `positive='down'`. -/
def depthCoord : Coord :=
  { points := [1]
    standard_name := "depth"
    long_name := "depth"
    var_name := "depth"
    units := "m"
    attributes := [("positive", "down")] }

/-- `_add_depth_coord(cube)` of the ESACCI-OC cmorizer: when the cube has no
`depth` coordinate, add `depthCoord` as an auxiliary coordinate and set
`cube.coordinates = 'depth'`; otherwise leave the cube alone. -/
def _add_depth_coord (cube : Cube) : Cube :=
  if hasDepthCoord cube then cube
  else { cube with
          aux_coords := cube.aux_coords ++ [depthCoord]
          coordinates := some "depth" }

/-- `_fix_data(cube, var)` of the ESACCI-OC cmorizer: under
`constant_metadata`, multiply the data by `1.e-06` when `var == 'chl'`;
other variables are untouched. -/
def _fix_data (cube : Cube) (var : String) : Cube :=
  if var == "chl" then
    { cube with data := cube.data.map (fun x => x * (1 / 1000000 : Rat)) }
  else cube

/-- `extract_variable(var_info, raw_info, out_dir, attrs)` of the ESACCI-OC
cmorizer, as the list of cubes it saves, in order.  `fvm`, `fc` and `sga`
stand for `fix_var_metadata`, `fix_coords` and `set_global_atts`, which live
in the cmorizer `utilities` module outside this tree and are kept abstract;
`rawvar` is `raw_info['name']` and `var` is `var_info.short_name`. -/
def extract_variable (fvm fc sga : Cube → Cube) (rawvar var : String) :
    List Cube → List Cube
  | [] => []
  | cube :: rest =>
    if cube.var_name == rawvar then
      sga (_fix_data (_add_depth_coord (fc (fvm cube))) var) ::
        extract_variable fvm fc sga rawvar var rest
    else extract_variable fvm fc sga rawvar var rest

/-- Spec-side restatement of `extract_variable`: exactly the loaded cubes
whose `var_name` equals the raw name are processed — by
`fix_var_metadata`, `fix_coords`, `_add_depth_coord`, `_fix_data`,
`set_global_atts`, in that order — and saved. -/
def extract_variable_spec (fvm fc sga : Cube → Cube) (rawvar var : String)
    (cubes : List Cube) : List Cube :=
  (cubes.filter (fun c => c.var_name == rawvar)).map
    (fun c => sga (_fix_data (_add_depth_coord (fc (fvm c))) var))

/-- Modelled from the spec: the per-model fix classes of
`esmvalcore.cmor._fixes.cmip5` (`Ch4` and `Co2` for FIO-ESM, `AllVars` and
`O2` for HADGEM2-CC) are outside this tree; only their tests are present.
The classes carry no state, so a fix value is its class. -/
inductive FixCls
  | Ch4
  | Co2
  | AllVars
  | O2
deriving DecidableEq

/-- Modelled from the spec: `Fix.get_fixes(project, model, variable)` is "a
registry-lookup pattern matching dataset+model+variable names" to lists of
fixes; the registered entries pinned by the tests in this tree are the four
triples below, and unregistered triples have no fixes. -/
def get_fixes : String → String → String → List FixCls
  | "CMIP5", "FIO-ESM", "ch4" => [FixCls.Ch4]
  | "CMIP5", "FIO-ESM", "co2" => [FixCls.Co2]
  | "CMIP5", "HADGEM2-CC", "tas" => [FixCls.AllVars]
  | "CMIP5", "HADGEM2-CC", "o2" => [FixCls.AllVars, FixCls.O2]
  | _, _, _ => []

/-- Modelled from the spec: `Ch4().fix_data` of the CMIP5 FIO-ESM fixes, "a
unit conversion for a chemical species in one model family": the data is
scaled by `29/16 * 1e9` and the cube metadata is untouched. -/
def ch4_fix_data (cube : Cube) : Cube :=
  { cube with data := cube.data.map (fun x => x * (29 / 16 * 1000000000 : Rat)) }

/-- Modelled from the spec: `Co2().fix_data` of the CMIP5 FIO-ESM fixes: the
data is scaled by `29/44 * 1e6` and the cube metadata is untouched. -/
def co2_fix_data (cube : Cube) : Cube :=
  { cube with data := cube.data.map (fun x => x * (29 / 44 * 1000000 : Rat)) }

/-- One variable entry of `CFG['variables']` as `cmorization` reads it:
`vals['mip']`, `vals['raw']` and `vals['file']`. -/
structure VarCfg where
  mip : String
  raw : String
  file : String
deriving DecidableEq

/-- The merged temporary path `os.path.join(out_dir, file + '_merged.nc')`. -/
def mergedPath (out_dir : String) (file : String) : String :=
  joinPath out_dir (file ++ "_merged.nc")

/-- A file system as the list of existing paths. -/
abbrev FileSys := List String

/-- Creating or overwriting a file: the path exists afterwards. -/
def fsWrite (fsys : FileSys) (p : String) : FileSys :=
  if p ∈ fsys then fsys else fsys ++ [p]

/-- `os.remove(p)`. -/
def fsRemove (fsys : FileSys) (p : String) : FileSys :=
  fsys.filter (fun q => q != p)

/-- One iteration of the `cmorization` loop, at the file-system level:
`merge_data` writes the variable's `<file>_merged.nc` under `out_dir`, then
`extract_variable` writes its outputs (`save_variable` lives in the
`utilities` module outside this tree, so the paths it writes for a variable
are the abstract `extraWrites v`). -/
def cmorizationStep (out_dir : String) (extraWrites : VarCfg → List String)
    (fsys : FileSys) (v : VarCfg) : FileSys :=
  (extraWrites v).foldl fsWrite (fsWrite fsys (mergedPath out_dir v.file))

/-- `cmorization(in_dir, out_dir)` at the file-system level: run the loop
over the configured variables, then `os.remove(inpfile)` where `inpfile` is
the merged temporary of the last iteration; with no variables `inpfile` is
unbound (`NameError`), modelled as `none`. -/
def cmorization (out_dir : String) (extraWrites : VarCfg → List String)
    (vars : List VarCfg) (fsys : FileSys) : Option FileSys :=
  match vars.getLast? with
  | none => none
  | some w =>
    some (fsRemove (vars.foldl (cmorizationStep out_dir extraWrites) fsys)
      (mergedPath out_dir w.file))

/-! Concrete inputs used by the witness theorems. -/

/-- A well-formed input `DataArray` for one monthly file. -/
def daW : DataArray :=
  { frames := [[[1, 2], [3, 4]]]
    attrs := [("grid_mapping", "crs"), ("ancillary_variables", "flags"),
              ("parameter_vocab_uri", "uri"), ("units", "mg m-3")] }

/-- A well-formed input dataset holding `daW` under `chlor_a` with all five
copied global attributes. -/
def dsW : NcDataset :=
  { vars := [("chlor_a", daW)]
    attrs := [("creator_name", "X"), ("creator_url", "U"), ("license", "L"),
              ("sensor", "S"), ("processing_level", "P")] }

/-- A file system holding `dsW` at the single path `d/f1.nc`. -/
def fsW : String → Option NcDataset :=
  fun p => if p = "d/f1.nc" then some dsW else none

/-- A `DataArray` missing the three deleted attributes. -/
def daBad : DataArray := { frames := [[[1]]], attrs := [] }

/-- A dataset whose `chlor_a` variable misses the deleted attributes. -/
def dsBad : NcDataset := { vars := [("chlor_a", daBad)], attrs := [] }

/-- A file system holding `dsBad` at the single path `d/f1.nc`. -/
def fsBad : String → Option NcDataset :=
  fun p => if p = "d/f1.nc" then some dsBad else none

/-- A concrete cube without a depth coordinate. -/
def cubeW : Cube :=
  { data := [1, 2]
    var_name := "chlor_a"
    standard_name := "mass_concentration_of_chlorophyll_a_in_sea_water"
    long_name := "Chlorophyll"
    units := "mg m-3"
    attributes := [("source", "t")]
    aux_coords := []
    coordinates := none }

/-- First configured variable of the `cmorization` counterexample; its
`file` entry collides with `cexV2`'s. -/
def cexV1 : VarCfg := { mip := "Omon", raw := "chlor_a", file := "f" }

/-- Second configured variable of the `cmorization` counterexample. -/
def cexV2 : VarCfg := { mip := "Omon", raw := "kd_490", file := "f" }

/-- A second configured variable with a distinct `file` entry. -/
def cexV3 : VarCfg := { mip := "Omon", raw := "kd_490", file := "g" }

/-! Theorems. -/

/-- Claim C2: `Fix.get_fixes` maps each of the four (project, model,
variable) triples pinned by the tests to exactly the registered fix list. -/
theorem get_fixes_registered :
    get_fixes "CMIP5" "FIO-ESM" "ch4" = [FixCls.Ch4] ∧
    get_fixes "CMIP5" "FIO-ESM" "co2" = [FixCls.Co2] ∧
    get_fixes "CMIP5" "HADGEM2-CC" "tas" = [FixCls.AllVars] ∧
    get_fixes "CMIP5" "HADGEM2-CC" "o2" = [FixCls.AllVars, FixCls.O2] := by
  refine ⟨by decide, by decide, by decide, by decide⟩

/-- Claim C3: for every cube, `Ch4().fix_data` multiplies the data by
`29/16 * 1e9`, `Co2().fix_data` multiplies the data by `29/44 * 1e6`, and
both leave the units unchanged. -/
theorem fio_esm_fix_data_scales (cube : Cube) :
    (ch4_fix_data cube).data =
        cube.data.map (fun x => x * (29 / 16 * 1000000000 : Rat)) ∧
    (ch4_fix_data cube).units = cube.units ∧
    (co2_fix_data cube).data =
        cube.data.map (fun x => x * (29 / 44 * 1000000 : Rat)) ∧
    (co2_fix_data cube).units = cube.units := by
  refine ⟨rfl, rfl, rfl, rfl⟩

/-- Claim C5: `_fix_data` with `var = 'chl'` multiplies every data value by
`1e-6` and leaves all cube metadata unchanged; with any other `var` the cube
is returned entirely unchanged. -/
theorem fix_data_frame (cube : Cube) (var : String) :
    ((_fix_data cube var).var_name = cube.var_name ∧
     (_fix_data cube var).standard_name = cube.standard_name ∧
     (_fix_data cube var).long_name = cube.long_name ∧
     (_fix_data cube var).units = cube.units ∧
     (_fix_data cube var).attributes = cube.attributes ∧
     (_fix_data cube var).aux_coords = cube.aux_coords ∧
     (_fix_data cube var).coordinates = cube.coordinates) ∧
    (var = "chl" →
      (_fix_data cube var).data = cube.data.map (fun x => x * (1 / 1000000 : Rat))) ∧
    (var ≠ "chl" → _fix_data cube var = cube) := by
  by_cases h : var = "chl" <;> simp [_fix_data, h]

/-- Witness for C5 at a concrete cube: the `chl` branch scales the data and
the `kd` branch is the identity. -/
theorem fix_data_frame_witness :
    (_fix_data cubeW "chl").data =
        cubeW.data.map (fun x => x * (1 / 1000000 : Rat)) ∧
    _fix_data cubeW "kd" = cubeW :=
  ⟨(fix_data_frame cubeW "chl").2.1 rfl, (fix_data_frame cubeW "kd").2.2 (by decide)⟩

/-- After `_add_depth_coord` the cube always has a `depth` coordinate. -/
theorem hasDepth_add_depth_coord (cube : Cube) :
    hasDepthCoord (_add_depth_coord cube) = true := by
  cases h : hasDepthCoord cube with
  | true => simp [_add_depth_coord, h]
  | false =>
    have hcube : _add_depth_coord cube =
        { cube with
            aux_coords := cube.aux_coords ++ [depthCoord]
            coordinates := some "depth" } := by
      simp [_add_depth_coord, h]
    rw [hcube]
    simp [hasDepthCoord, coordName, depthCoord]

/-- Claim C6: `_add_depth_coord` adds the auxiliary `depth` coordinate
(value 1, units `m`, `positive='down'`) exactly when the cube has no `depth`
coordinate, and it is idempotent. -/
theorem add_depth_coord_spec (cube : Cube) :
    (hasDepthCoord cube = false →
      _add_depth_coord cube =
        { cube with
            aux_coords := cube.aux_coords ++ [depthCoord]
            coordinates := some "depth" }) ∧
    (hasDepthCoord cube = true → _add_depth_coord cube = cube) ∧
    _add_depth_coord (_add_depth_coord cube) = _add_depth_coord cube := by
  refine ⟨fun h => by simp [_add_depth_coord, h], fun h => by simp [_add_depth_coord, h], ?_⟩
  have h2 := hasDepth_add_depth_coord cube
  set y := _add_depth_coord cube with hy
  simp [_add_depth_coord, h2]

/-- Witness for C6 at a concrete cube without a depth coordinate: the
coordinate is added. -/
theorem add_depth_coord_witness :
    _add_depth_coord cubeW =
      { cubeW with
          aux_coords := cubeW.aux_coords ++ [depthCoord]
          coordinates := some "depth" } :=
  (add_depth_coord_spec cubeW).1 (by decide)

/-- Claim C7: `extract_variable` processes, with the pipeline
`fix_var_metadata`, `fix_coords`, `_add_depth_coord`, `_fix_data`,
`set_global_atts` in that order, exactly the loaded cubes whose `var_name`
equals the raw name, and saves exactly those; all other cubes are dropped
untouched. -/
theorem extract_variable_eq_spec (fvm fc sga : Cube → Cube) (rawvar var : String)
    (cubes : List Cube) :
    extract_variable fvm fc sga rawvar var cubes =
      extract_variable_spec fvm fc sga rawvar var cubes := by
  induction cubes with
  | nil => rfl
  | cons c rest ih =>
    cases h : (c.var_name == rawvar) <;>
      simp [extract_variable, extract_variable_spec, List.filter_cons, h] <;>
      simpa [extract_variable_spec] using ih

/-- Writing a path makes it present. -/
theorem mem_fsWrite_self (fsys : FileSys) (p : String) : p ∈ fsWrite fsys p := by
  by_cases h : p ∈ fsys <;> simp [fsWrite, h]

/-- Writing never removes a present path. -/
theorem mem_fsWrite_of_mem (fsys : FileSys) (p q : String) (h : q ∈ fsys) :
    q ∈ fsWrite fsys p := by
  by_cases hp : p ∈ fsys <;> simp [fsWrite, hp, h]

/-- A fold of writes never removes a present path. -/
theorem mem_foldl_fsWrite (l : List String) (fsys : FileSys) (q : String)
    (h : q ∈ fsys) : q ∈ l.foldl fsWrite fsys := by
  induction l generalizing fsys with
  | nil => exact h
  | cons x xs ih => exact ih _ (mem_fsWrite_of_mem _ _ _ h)

/-- One `cmorization` iteration never removes a present path. -/
theorem mem_cmorizationStep_of_mem (out_dir : String)
    (extraWrites : VarCfg → List String) (fsys : FileSys) (v : VarCfg)
    (q : String) (h : q ∈ fsys) : q ∈ cmorizationStep out_dir extraWrites fsys v :=
  mem_foldl_fsWrite _ _ _ (mem_fsWrite_of_mem _ _ _ h)

/-- One `cmorization` iteration writes the variable's merged temporary. -/
theorem mem_cmorizationStep_self (out_dir : String)
    (extraWrites : VarCfg → List String) (fsys : FileSys) (v : VarCfg) :
    mergedPath out_dir v.file ∈ cmorizationStep out_dir extraWrites fsys v :=
  mem_foldl_fsWrite _ _ _ (mem_fsWrite_self _ _)

/-- The `cmorization` loop never removes a present path. -/
theorem mem_foldl_cmorizationStep_of_mem (out_dir : String)
    (extraWrites : VarCfg → List String) (vars : List VarCfg) (fsys : FileSys)
    (q : String) (h : q ∈ fsys) :
    q ∈ vars.foldl (cmorizationStep out_dir extraWrites) fsys := by
  induction vars generalizing fsys with
  | nil => exact h
  | cons x xs ih => exact ih _ (mem_cmorizationStep_of_mem _ _ _ _ _ h)

/-- After the `cmorization` loop, the merged temporary of every processed
variable is present. -/
theorem mem_foldl_cmorizationStep (out_dir : String)
    (extraWrites : VarCfg → List String) (v : VarCfg) :
    ∀ (vars : List VarCfg) (fsys : FileSys), v ∈ vars →
      mergedPath out_dir v.file ∈ vars.foldl (cmorizationStep out_dir extraWrites) fsys := by
  intro vars
  induction vars with
  | nil => intro fsys hv; simp at hv
  | cons x xs ih =>
    intro fsys hv
    simp only [List.foldl_cons]
    rcases List.mem_cons.mp hv with rfl | hmem
    · exact mem_foldl_cmorizationStep_of_mem _ _ _ _ _
        (mem_cmorizationStep_self _ _ _ _)
    · exact ih _ hmem

/-- Claim C10, counterexample: with two configured variables sharing the
`file` entry `f`, both merged temporaries are the same path, so the merged
file created for the first variable does not remain after `cmorization`
removes the last one — the run ends with an empty output directory. -/
theorem cmorization_dup_file_cex :
    cmorization "out" (fun _ => []) [cexV1, cexV2] [] = some [] ∧
      mergedPath "out" cexV1.file ∉ ([] : FileSys) := by
  constructor
  · decide
  · simp

/-- Claim C10, amended: after `cmorization` over two or more variables, the
merged temporary of every variable before the last remains, provided its
merged path differs from the last variable's merged path (with a shared
`file` entry the two paths coincide and the single file is removed). -/
theorem cmorization_keeps_earlier_merged (out_dir : String)
    (extraWrites : VarCfg → List String) (vars : List VarCfg) (fsys : FileSys)
    (v w : VarCfg) (hv : v ∈ vars.dropLast) (hw : vars.getLast? = some w)
    (hne : mergedPath out_dir v.file ≠ mergedPath out_dir w.file) :
    ∃ fsys', cmorization out_dir extraWrites vars fsys = some fsys' ∧
      mergedPath out_dir v.file ∈ fsys' := by
  refine ⟨fsRemove (vars.foldl (cmorizationStep out_dir extraWrites) fsys)
      (mergedPath out_dir w.file), by simp [cmorization, hw], ?_⟩
  have hvv : v ∈ vars := by
    have heq : vars.dropLast ++ [w] = vars :=
      List.dropLast_append_getLast? w (Option.mem_def.mpr hw)
    rw [← heq]
    exact List.mem_append_left _ hv
  have hmem := mem_foldl_cmorizationStep out_dir extraWrites v vars fsys hvv
  simp only [fsRemove, List.mem_filter]
  exact ⟨hmem, by simpa [bne_iff_ne] using hne⟩

/-- Witness for the amended C10 with two variables with distinct `file`
entries: the first variable's merged temporary survives. -/
theorem cmorization_keeps_earlier_merged_witness :
    ∃ fsys', cmorization "out" (fun _ => []) [cexV1, cexV3] [] = some fsys' ∧
      mergedPath "out" cexV1.file ∈ fsys' :=
  cmorization_keeps_earlier_merged "out" (fun _ => []) [cexV1, cexV3] [] cexV1
    cexV3 (by decide) (by decide) (by decide)

/-- Sorting is a function of the multiset of paths: permuted inputs sort to
the same list. -/
theorem sortPaths_perm_eq (l₁ l₂ : List String) (h : l₁.Perm l₂) :
    sortPaths l₁ = sortPaths l₂ :=
  List.eq_of_perm_of_sorted
    ((List.perm_insertionSort _ l₁).trans (h.trans (List.perm_insertionSort _ l₂).symm))
    (List.sorted_insertionSort _ l₁) (List.sorted_insertionSort _ l₂)

/-- Claim C9: `merge_data` is deterministic in the set of matching input
files — permuting the file-system enumeration handed to `glob.glob` does not
change its result, because the matching paths are sorted before the loop. -/
theorem merge_data_enum_order_irrelevant (fs : String → Option NcDataset)
    (names₁ names₂ : List String) (in_dir out_dir raw_name raw_file : String)
    (bins : Nat) (h : names₁.Perm names₂) :
    merge_data fs names₁ in_dir out_dir raw_name raw_file bins =
      merge_data fs names₂ in_dir out_dir raw_name raw_file bins := by
  have hs : sortPaths (names₁.filter (globMatch (joinPath in_dir raw_file))) =
      sortPaths (names₂.filter (globMatch (joinPath in_dir raw_file))) :=
    sortPaths_perm_eq _ _ (h.filter _)
  simp only [merge_data]
  rw [hs]

/-- Witness for C9: two enumerations of the same two paths give the same
`merge_data` result. -/
theorem merge_data_enum_order_witness :
    merge_data fsW ["x.nc", "d/f1.nc"] "d" "o" "chlor_a" "f" 0 =
      merge_data fsW ["d/f1.nc", "x.nc"] "d" "o" "chlor_a" "f" 0 :=
  merge_data_enum_order_irrelevant fsW ["x.nc", "d/f1.nc"] ["d/f1.nc", "x.nc"]
    "d" "o" "chlor_a" "f" 0 (List.Perm.swap "d/f1.nc" "x.nc" [])

/-- Once `newda`/`dsmeta` are bound and the first path does not reappear,
the `merge_data` loop is a fold of time concatenations over the per-file
results. -/
theorem mergeGo_loop_eq (fs : String → Option NcDataset) (var : String)
    (bins : Nat) (doBin : Bool) (first : String) :
    ∀ rest : List String, first ∉ rest → ∀ nd meta,
      mergeGo fs var bins doBin first rest (some (nd, meta)) =
        match processList fs var bins doBin rest with
        | Except.error e => Except.error e
        | Except.ok das => Except.ok (das.foldl timeConcat nd, meta) := by
  intro rest
  induction rest with
  | nil => intro _ nd meta; rfl
  | cons x xs ih =>
    intro hfirst nd meta
    have hx : ¬(x == first) = true := by
      simp only [beq_iff_eq]
      rintro rfl
      exact hfirst (List.mem_cons_self x xs)
    have hfirst' : first ∉ xs := fun h => hfirst (List.mem_cons_of_mem _ h)
    simp only [mergeGo, processList]
    cases hop : openProcess fs var bins doBin x with
    | error e => rfl
    | ok pr =>
      obtain ⟨ds, da⟩ := pr
      dsimp only
      rw [if_neg hx]
      rw [ih hfirst' (timeConcat nd da) meta]
      cases hp : processList fs var bins doBin xs with
      | error e => rfl
      | ok das => simp [List.foldl_cons]

/-- Claim C1: on a file system with distinct paths whose sorted list of
matching files is non-empty, `merge_data` equals its spec-side restatement
`merge_data_spec`: per file open, select with latitude reversed, delete the
three attributes, optionally coarsen; concatenate along time in file order;
copy the five global attributes of the first file plus `BINNING`; write to
`<file>_merged.nc` under `out_dir` and return that path with the `BINNING`
string. -/
theorem merge_data_eq_spec (fs : String → Option NcDataset) (names : List String)
    (in_dir out_dir raw_name raw_file : String) (bins : Nat)
    (hnd : names.Nodup)
    (hne : sortPaths (names.filter (globMatch (joinPath in_dir raw_file))) ≠ []) :
    merge_data fs names in_dir out_dir raw_name raw_file bins =
      merge_data_spec fs names in_dir out_dir raw_name raw_file bins := by
  have hdnd : (sortPaths (names.filter (globMatch (joinPath in_dir raw_file)))).Nodup := by
    have h1 : (names.filter (globMatch (joinPath in_dir raw_file))).Nodup :=
      hnd.filter _
    exact (List.perm_insertionSort _ _).nodup_iff.mpr h1
  simp only [merge_data, merge_data_spec]
  cases hd : sortPaths (names.filter (globMatch (joinPath in_dir raw_file))) with
  | nil => exact absurd hd hne
  | cons f0 rest =>
    rw [hd] at hdnd
    have hf0 : f0 ∉ rest := (List.nodup_cons.mp hdnd).1
    simp only [List.headD, mergeGo]
    cases h0 : openProcess fs raw_name bins (bins % 2 == 0 && bins != 0) f0 with
    | error e => rfl
    | ok pr0 =>
      obtain ⟨ds0, da0⟩ := pr0
      dsimp only
      rw [if_pos (beq_self_eq_true f0)]
      cases hm : gatherMeta bins (bins % 2 == 0 && bins != 0) ds0 with
      | error e => rfl
      | ok meta =>
        dsimp only
        rw [mergeGo_loop_eq fs raw_name bins (bins % 2 == 0 && bins != 0) f0 rest hf0 da0 meta]
        cases hp : processList fs raw_name bins (bins % 2 == 0 && bins != 0) rest with
        | error e => rfl
        | ok das => rfl

/-- Witness for C1 at a one-file file system. -/
theorem merge_data_eq_spec_witness :
    merge_data fsW ["d/f1.nc"] "d" "o" "chlor_a" "f" 0 =
      merge_data_spec fsW ["d/f1.nc"] "d" "o" "chlor_a" "f" 0 :=
  merge_data_eq_spec fsW ["d/f1.nc"] "d" "o" "chlor_a" "f" 0 (by decide) (by decide)

/-- Deletion fails exactly on a missing key. -/
theorem assocDel_eq_none_iff (k : String) :
    ∀ l : List (String × String), assocDel k l = none ↔ l.lookup k = none := by
  intro l
  induction l with
  | nil => simp [assocDel, List.lookup]
  | cons kv rest ih =>
    obtain ⟨k', v⟩ := kv
    by_cases h : k' = k
    · subst h
      simp [assocDel, List.lookup]
    · have h2 : (k' == k) = false := beq_eq_false_iff_ne.mpr h
      have h3 : (k == k') = false := beq_eq_false_iff_ne.mpr (Ne.symm h)
      simp [assocDel, List.lookup, h2, h3, ih]

/-- Deleting one key leaves lookups of other keys unchanged. -/
theorem assocDel_lookup_other (k k₂ : String) (hne : k₂ ≠ k) :
    ∀ l l' : List (String × String),
      assocDel k l = some l' → l'.lookup k₂ = l.lookup k₂ := by
  intro l
  induction l with
  | nil => intro l' h; simp [assocDel] at h
  | cons kv rest ih =>
    obtain ⟨k', v⟩ := kv
    intro l' h
    by_cases hk : k' = k
    · subst hk
      simp only [assocDel, beq_self_eq_true, if_pos] at h
      cases h
      have h3 : (k₂ == k') = false := beq_eq_false_iff_ne.mpr hne
      simp [List.lookup, h3]
    · have h2 : (k' == k) = false := beq_eq_false_iff_ne.mpr hk
      simp only [assocDel, h2, Bool.false_eq_true, if_false, Option.map_eq_some'] at h
      obtain ⟨r, hr, rfl⟩ := h
      by_cases hk2 : k₂ = k'
      · subst hk2
        simp [List.lookup]
      · have h4 : (k₂ == k') = false := beq_eq_false_iff_ne.mpr hk2
        simp [List.lookup, h4, ih r hr]

/-- If any of the three deleted attributes is absent, the deletion loop
raises `KeyError`. -/
theorem delChain_error_of_missing (attrs : List (String × String)) (k : String)
    (hk : k ∈ attrsDeleted) (hmiss : attrs.lookup k = none) :
    ∃ e, delChain attrs = Except.error e := by
  simp only [attrsDeleted, List.mem_cons, List.not_mem_nil, or_false] at hk
  rcases hk with rfl | rfl | rfl
  · have h1 : assocDel "grid_mapping" attrs = none :=
      (assocDel_eq_none_iff _ _).mpr hmiss
    exact ⟨"KeyError: grid_mapping", by simp [delChain, delAttr, h1]⟩
  · cases h1 : assocDel "grid_mapping" attrs with
    | none => exact ⟨"KeyError: grid_mapping", by simp [delChain, delAttr, h1]⟩
    | some a1 =>
      have h2 : a1.lookup "ancillary_variables" = none := by
        rw [assocDel_lookup_other "grid_mapping" "ancillary_variables"
          (by decide) attrs a1 h1]
        exact hmiss
      have h3 : assocDel "ancillary_variables" a1 = none :=
        (assocDel_eq_none_iff _ _).mpr h2
      exact ⟨"KeyError: ancillary_variables", by simp [delChain, delAttr, h1, h3]⟩
  · cases h1 : assocDel "grid_mapping" attrs with
    | none => exact ⟨"KeyError: grid_mapping", by simp [delChain, delAttr, h1]⟩
    | some a1 =>
      cases h2 : assocDel "ancillary_variables" a1 with
      | none => exact ⟨"KeyError: ancillary_variables", by simp [delChain, delAttr, h1, h2]⟩
      | some a2 =>
        have h3 : a2.lookup "parameter_vocab_uri" = none := by
          rw [assocDel_lookup_other "ancillary_variables" "parameter_vocab_uri"
            (by decide) a1 a2 h2]
          rw [assocDel_lookup_other "grid_mapping" "parameter_vocab_uri"
            (by decide) attrs a1 h1]
          exact hmiss
        have h4 : assocDel "parameter_vocab_uri" a2 = none :=
          (assocDel_eq_none_iff _ _).mpr h3
        exact ⟨"KeyError: parameter_vocab_uri", by simp [delChain, delAttr, h1, h2, h4]⟩

/-- A file whose selected variable misses one of the three attributes makes
the per-file pipeline raise. -/
theorem processPlain_error_of_missing (var : String) (ds : NcDataset)
    (da : DataArray) (k : String) (hvar : ds.vars.lookup var = some da)
    (hk : k ∈ attrsDeleted) (hmiss : da.attrs.lookup k = none) :
    ∃ e, processPlain var ds = Except.error e := by
  obtain ⟨e, he⟩ := delChain_error_of_missing da.attrs k hk hmiss
  exact ⟨e, by simp [processPlain, hvar, latReversed, he]⟩

/-- If processing any file of the loop's list raises, the whole loop
raises. -/
theorem mergeGo_error_of_mem (fs : String → Option NcDataset) (var : String)
    (bins : Nat) (doBin : Bool) (first : String) (p : String)
    (herr : ∃ e, openProcess fs var bins doBin p = Except.error e) :
    ∀ l, p ∈ l → ∀ acc, ∃ e, mergeGo fs var bins doBin first l acc = Except.error e := by
  intro l
  induction l with
  | nil => intro h; simp at h
  | cons x xs ih =>
    intro hmem acc
    simp only [mergeGo]
    cases hop : openProcess fs var bins doBin x with
    | error e => exact ⟨e, rfl⟩
    | ok pr =>
      obtain ⟨ds, da⟩ := pr
      have hpx : p ≠ x := by
        rintro rfl
        obtain ⟨e, he⟩ := herr
        rw [he] at hop
        cases hop
      have hpxs : p ∈ xs := by
        rcases List.mem_cons.mp hmem with h | h
        · exact absurd h hpx
        · exact h
      dsimp only
      by_cases hxf : (x == first) = true
      · rw [if_pos hxf]
        cases hm : gatherMeta bins doBin ds with
        | error e => exact ⟨e, rfl⟩
        | ok meta => exact ih hpxs _
      · rw [if_neg hxf]
        cases acc with
        | none => exact ⟨_, rfl⟩
        | some pr2 =>
          obtain ⟨nd, meta⟩ := pr2
          exact ih hpxs _

/-- Claim C4: `merge_data` does not catch exceptions — for a matching input
file whose selected variable lacks any one of `grid_mapping`,
`ancillary_variables`, `parameter_vocab_uri`, the `KeyError` propagates out
of `merge_data` and no merged output is produced (the written file and path
exist only in the `Except.ok` result). -/
theorem merge_data_missing_attr_error (fs : String → Option NcDataset)
    (names : List String) (in_dir out_dir raw_name raw_file : String)
    (bins : Nat) (p : String) (ds : NcDataset) (da : DataArray) (k : String)
    (hmem : p ∈ names) (hmatch : globMatch (joinPath in_dir raw_file) p = true)
    (hfs : fs p = some ds) (hvar : ds.vars.lookup raw_name = some da)
    (hk : k ∈ attrsDeleted) (hmiss : da.attrs.lookup k = none) :
    ∃ e, merge_data fs names in_dir out_dir raw_name raw_file bins =
      Except.error e := by
  obtain ⟨e0, he0⟩ :=
    processPlain_error_of_missing raw_name ds da k hvar hk hmiss
  have hopen : ∃ e, openProcess fs raw_name bins (bins % 2 == 0 && bins != 0) p =
      Except.error e :=
    ⟨e0, by simp [openProcess, hfs, processFile, he0]⟩
  have hpd : p ∈ sortPaths (names.filter (globMatch (joinPath in_dir raw_file))) := by
    unfold sortPaths
    rw [List.mem_insertionSort]
    exact List.mem_filter.mpr ⟨hmem, hmatch⟩
  obtain ⟨e, he⟩ := mergeGo_error_of_mem fs raw_name bins
    (bins % 2 == 0 && bins != 0)
    ((sortPaths (names.filter (globMatch (joinPath in_dir raw_file)))).headD "")
    p hopen _ hpd none
  refine ⟨e, ?_⟩
  simp only [merge_data]
  rw [he]

/-- Witness for C4: a one-file file system whose variable has no attributes
at all makes `merge_data` fail. -/
theorem merge_data_missing_attr_error_witness :
    ∃ e, merge_data fsBad ["d/f1.nc"] "d" "o" "chlor_a" "f" 2 =
      Except.error e :=
  merge_data_missing_attr_error fsBad ["d/f1.nc"] "d" "o" "chlor_a" "f" 2
    "d/f1.nc" dsBad daBad "grid_mapping" (by decide) (by decide) (by decide)
    (by decide) (by decide) (by decide)

/-- Every key of a successful `lookupAll` result comes from the requested
key list. -/
theorem lookupAll_keys (attrs : List (String × String)) :
    ∀ (ks : List String) (vals : List (String × String)),
      lookupAll attrs ks = Except.ok vals → ∀ kv ∈ vals, kv.1 ∈ ks := by
  intro ks
  induction ks with
  | nil =>
    intro vals h kv hkv
    simp only [lookupAll] at h
    cases h
    simp at hkv
  | cons k ks ih =>
    intro vals h kv hkv
    simp only [lookupAll] at h
    cases h1 : attrs.lookup k with
    | none => rw [h1] at h; cases h
    | some v =>
      rw [h1] at h
      cases h2 : lookupAll attrs ks with
      | error e => rw [h2] at h; cases h
      | ok rest =>
        rw [h2] at h
        cases h
        rcases List.mem_cons.mp hkv with rfl | hm
        · exact List.mem_cons_self _ _
        · exact List.mem_cons_of_mem _ (ih rest h2 kv hm)

/-- Looking `BINNING` up in `dsmeta` returns the entry appended at its end,
since none of the five copied keys is `BINNING`. -/
theorem lookup_binning_append (vals : List (String × String)) (s : String)
    (hv : ∀ kv ∈ vals, kv.1 ∈ metaKeys) :
    (vals ++ [("BINNING", s)]).lookup "BINNING" = some s := by
  induction vals with
  | nil => simp [List.lookup]
  | cons kv rest ih =>
    obtain ⟨k, v⟩ := kv
    have hk : k ∈ metaKeys := hv (k, v) (List.mem_cons_self _ _)
    have hne : (("BINNING" : String) == k) = false := by
      refine beq_eq_false_iff_ne.mpr ?_
      simp only [metaKeys, List.mem_cons, List.not_mem_nil, or_false] at hk
      rcases hk with rfl | rfl | rfl | rfl | rfl <;> decide
    simp only [List.cons_append, List.lookup, hne]
    exact ih (fun kv h => hv kv (List.mem_cons_of_mem _ h))

/-- A successful `gatherMeta` always carries the expected `BINNING` value. -/
theorem gatherMeta_binning (bins : Nat) (doBin : Bool) (ds : NcDataset)
    (meta : List (String × String)) (h : gatherMeta bins doBin ds = Except.ok meta) :
    meta.lookup "BINNING" = some (if doBin then binningStr bins else "") := by
  simp only [gatherMeta] at h
  cases h1 : lookupAll ds.attrs metaKeys with
  | error e => rw [h1] at h; cases h
  | ok vals =>
    rw [h1] at h
    cases h
    exact lookup_binning_append vals _ (lookupAll_keys ds.attrs metaKeys vals h1)

/-- The loop preserves the `BINNING` value of the bound `dsmeta`. -/
theorem mergeGo_binning (fs : String → Option NcDataset) (var : String)
    (bins : Nat) (doBin : Bool) (first : String) :
    ∀ (l : List String) (acc : Option (DataArray × List (String × String)))
      (nd : DataArray) (meta : List (String × String)),
      (∀ nd0 m0, acc = some (nd0, m0) →
        m0.lookup "BINNING" = some (if doBin then binningStr bins else "")) →
      mergeGo fs var bins doBin first l acc = Except.ok (nd, meta) →
      meta.lookup "BINNING" = some (if doBin then binningStr bins else "") := by
  intro l
  induction l with
  | nil =>
    intro acc nd meta hacc h
    cases acc with
    | none => simp [mergeGo] at h
    | some pr =>
      obtain ⟨nd0, m0⟩ := pr
      simp only [mergeGo] at h
      have h' : nd0 = nd ∧ m0 = meta := by simpa using h
      exact h'.2 ▸ hacc nd0 m0 rfl
  | cons x xs ih =>
    intro acc nd meta hacc h
    simp only [mergeGo] at h
    cases hop : openProcess fs var bins doBin x with
    | error e => rw [hop] at h; cases h
    | ok pr =>
      obtain ⟨ds, da⟩ := pr
      rw [hop] at h
      dsimp only at h
      by_cases hxf : (x == first) = true
      · rw [if_pos hxf] at h
        cases hm : gatherMeta bins doBin ds with
        | error e => rw [hm] at h; cases h
        | ok m =>
          rw [hm] at h
          refine ih _ nd meta (fun nd0 m0 hh => ?_) h
          have heq : da = nd0 ∧ m = m0 := by simpa using hh
          exact heq.2 ▸ gatherMeta_binning bins doBin ds m hm
      · rw [if_neg hxf] at h
        cases acc with
        | none => cases h
        | some pr2 =>
          obtain ⟨nd0, m0⟩ := pr2
          refine ih _ nd meta (fun nd1 m1 hh => ?_) h
          have heq : timeConcat nd0 da = nd1 ∧ m0 = m1 := by simpa using hh
          exact heq.2 ▸ hacc nd0 m0 rfl

/-- A successful `merge_data` returns `binningStr bins` as its `BINNING`
string when `do_bin` held and the empty string otherwise. -/
theorem merge_data_ok_binning (fs : String → Option NcDataset)
    (names : List String) (in_dir out_dir raw_name raw_file : String)
    (bins : Nat) (p b : String) (ds : NcDataset)
    (h : merge_data fs names in_dir out_dir raw_name raw_file bins =
      Except.ok (p, b, ds)) :
    b = if bins % 2 == 0 && bins != 0 then binningStr bins else "" := by
  simp only [merge_data] at h
  cases hg : mergeGo fs raw_name bins (bins % 2 == 0 && bins != 0)
      ((sortPaths (names.filter (globMatch (joinPath in_dir raw_file)))).headD "")
      (sortPaths (names.filter (globMatch (joinPath in_dir raw_file)))) none with
  | error e => rw [hg] at h; cases h
  | ok pr =>
    obtain ⟨newda, dsmeta⟩ := pr
    rw [hg] at h
    dsimp only at h
    have hb := mergeGo_binning fs raw_name bins (bins % 2 == 0 && bins != 0)
      ((sortPaths (names.filter (globMatch (joinPath in_dir raw_file)))).headD "")
      (sortPaths (names.filter (globMatch (joinPath in_dir raw_file)))) none
      newda dsmeta (fun _ _ hh => by cases hh) hg
    rw [hb] at h
    cases h
    rfl

/-- Claim C8: `merge_data` coarsens exactly when `bins` is even and nonzero:
in that case the per-file pipeline is the plain pipeline followed by the
two coarsening steps and a successful run reports
`Data binned using  <bins> by <bins> cells average`; for odd or zero `bins`
the per-file pipeline is exactly the plain pipeline and a successful run
reports the empty `BINNING` string. -/
theorem merge_data_binning_iff (fs : String → Option NcDataset)
    (names : List String) (in_dir out_dir raw_name raw_file : String)
    (bins : Nat) (p b : String) (ds : NcDataset)
    (h : merge_data fs names in_dir out_dir raw_name raw_file bins =
      Except.ok (p, b, ds)) :
    ((bins % 2 = 0 ∧ bins ≠ 0) →
      b = binningStr bins ∧
      ∀ d, processFile raw_name bins (bins % 2 == 0 && bins != 0) d =
        match processPlain raw_name d with
        | Except.error e => Except.error e
        | Except.ok da => coarsenDa bins da) ∧
    (¬(bins % 2 = 0 ∧ bins ≠ 0) →
      b = "" ∧
      ∀ d, processFile raw_name bins (bins % 2 == 0 && bins != 0) d =
        processPlain raw_name d) := by
  have hb := merge_data_ok_binning fs names in_dir out_dir raw_name raw_file
    bins p b ds h
  constructor
  · intro hc
    have hcond : (bins % 2 == 0 && bins != 0) = true := by
      simp [Bool.and_eq_true, beq_iff_eq, bne_iff_ne]
      exact ⟨hc.1, hc.2⟩
    refine ⟨by rw [hb, hcond]; rfl, fun d => ?_⟩
    rw [hcond]
    simp only [processFile]
    cases hp : processPlain raw_name d <;> simp
  · intro hnc
    have hcond : (bins % 2 == 0 && bins != 0) = false := by
      cases hb2 : (bins % 2 == 0 && bins != 0) with
      | false => rfl
      | true =>
        exact absurd (by simpa [Bool.and_eq_true, beq_iff_eq, bne_iff_ne] using hb2) hnc
    refine ⟨by rw [hb, hcond]; rfl, fun d => ?_⟩
    rw [hcond]
    simp only [processFile]
    cases hp : processPlain raw_name d <;> simp

/-- Witness for C8 at `bins = 0` (zero, hence unbinned): the successful run
returns the empty `BINNING` string and the per-file pipeline is the plain
pipeline. -/
theorem merge_data_binning_iff_witness :
    (((0 : Nat) % 2 = 0 ∧ (0 : Nat) ≠ 0) →
      ("" : String) = binningStr 0 ∧
      ∀ d, processFile "chlor_a" 0 ((0 : Nat) % 2 == 0 && (0 : Nat) != 0) d =
        match processPlain "chlor_a" d with
        | Except.error e => Except.error e
        | Except.ok da => coarsenDa 0 da) ∧
    (¬((0 : Nat) % 2 = 0 ∧ (0 : Nat) ≠ 0) →
      ("" : String) = "" ∧
      ∀ d, processFile "chlor_a" 0 ((0 : Nat) % 2 == 0 && (0 : Nat) != 0) d =
        processPlain "chlor_a" d) :=
  merge_data_binning_iff fsW ["d/f1.nc"] "d" "o" "chlor_a" "f" 0
    "o/f_merged.nc" ""
    { vars := [("chlor_a",
        { frames := [[[3, 4], [1, 2]]], attrs := [("units", "mg m-3")] })]
      attrs := [("creator_name", "X"), ("creator_url", "U"), ("license", "L"),
                ("sensor", "S"), ("processing_level", "P"), ("BINNING", "")] }
    (by rfl)
